import Mathlib

/-!
Verification development for the retrieval core of a vertical document
search engine (inverted index, TF-IDF/BM25 rankers, query processor).

The embedding is a shallow one, translated from the Python sources:

* `src/indexer/inverted_index.py` — `InvertedIndex` with `add_document`,
  `get_postings`, `get_document_frequency`, `get_idf`;
* `src/indexer/ranking.py` — `TFIDFRanker.score_document`,
  `BM25Ranker.score_document` and their helpers;
* `src/indexer/preprocessor.py` — the stage structure of
  `TextPreprocessor.preprocess` (the NLTK stage bodies themselves are
  external library calls and are not embeddable; documents and queries
  enter the model as already-normalized token lists, exactly the values
  the Python code obtains from `preprocess_for_indexing` /
  `preprocess_for_query`);
* `src/search/query_processor.py` — `QueryProcessor.search`: term cap,
  candidate gathering with the prefix fallback, the Score step call,
  coverage boost, sorting and pagination.

Python dicts are modelled as insertion-ordered association lists with
`dictGet` / `dictSet`; Python floats are modelled as `ℝ` (exact real
arithmetic) and the rational weight bookkeeping of the index as `ℚ`.
-/

namespace CUSearch

/-- Python `d.get(k, dflt)` on an insertion-ordered association list
(first entry with the key wins, as in a Python dict that never holds
duplicate keys). -/
def dictGet {α β : Type} [DecidableEq α] : List (α × β) → α → β → β
  | [], _, dflt => dflt
  | p :: ps, k, dflt => if p.1 = k then p.2 else dictGet ps k dflt

/-- Python `k in d` for an association list. -/
def hasKey {α β : Type} [DecidableEq α] : List (α × β) → α → Bool
  | [], _ => false
  | p :: ps, k => decide (p.1 = k) || hasKey ps k

/-- Python `d[k] = v`: replace the entry if the key is present, else append. -/
def dictSet {α β : Type} [DecidableEq α] (d : List (α × β)) (k : α) (v : β) : List (α × β) :=
  if hasKey d k then d.map (fun p => if p.1 = k then (k, v) else p)
  else d ++ [(k, v)]

/-- A normalized token, the output of the NLTK preprocessing pipeline. -/
abbrev Term := String

/-- A searchable field name (title, authors, year, abstract, keywords). -/
abbrev FieldName := String

/-- Document identifiers are integers assigned at build time. -/
abbrev DocId := Nat

/-- One posting: the tuple `(doc_id, freq, field)` that `inverted_index.py`
stores in `self.index[term]`; `freq` is the field-weighted term frequency
(a Python float, modelled as `ℚ` because it is always a product of a
count and a rational field weight). -/
structure Posting where
  did : DocId
  weight : ℚ
  ftag : FieldName
deriving DecidableEq

/-- A document as it reaches `add_document`: `fields` holds, in the order
of the `searchable_fields` dict of `inverted_index.py` (title, authors,
year, abstract, keywords; fields with empty text are skipped), the token
list that `preprocess_for_indexing` produces for each field text.
`yearVal` is the result of `int(doc.get("year"))` used by the sort step
of the query processor, `none` when the conversion raises. -/
structure Doc where
  yearVal : Option Int
  fields : List (FieldName × List Term)
deriving DecidableEq

/-- Field weights from `config.FIELD_WEIGHTS`, with the `.get(field, 1.0)`
default of `add_document` built in. -/
def configFieldWeights : FieldName → ℚ := fun f =>
  if f = "title" then 3
  else if f = "authors" then 5/2
  else if f = "keywords" then 2
  else if f = "year" then 3/2
  else 1

/-- The state of `InvertedIndex` (inverted_index.py). `index`, `documents`,
`doc_field_lengths` and `doc_lengths` are Python dicts, modelled as
insertion-ordered association lists; `term_doc_freq` is a
`defaultdict(int)`, modelled as a total function with default 0. -/
structure InvertedIndex where
  index : List (Term × List Posting)
  documents : List (DocId × Doc)
  doc_field_lengths : List (DocId × List (FieldName × Nat))
  doc_lengths : List (DocId × Nat)
  total_docs : Nat
  avg_doc_length : ℚ
  field_weights : FieldName → ℚ
  term_doc_freq : Term → Nat

/-- A fresh `InvertedIndex()` built with the default configuration. -/
def emptyIndex : InvertedIndex :=
  ⟨[], [], [], [], 0, 0, configFieldWeights, fun _ => 0⟩

/-- A fresh index built with uniform field weights (reachable in Python
via the `field_weights` constructor argument, whose `.get(field, 1.0)`
default makes every weight 1.0 when the dict maps each field to 1.0). -/
def emptyIndexUnitWeights : InvertedIndex :=
  ⟨[], [], [], [], 0, 0, fun _ => 1, fun _ => 0⟩

/-- One step of the `term_freqs` counting loop of `add_document`
(a `defaultdict(int)` incremented per token). -/
def bumpCount (acc : List (Term × Nat)) (t : Term) : List (Term × Nat) :=
  if hasKey acc t then acc.map (fun p => if p.1 = t then (p.1, p.2 + 1) else p)
  else acc ++ [(t, 1)]

/-- Per-field term frequencies: `term_freqs[token] += 1` over the token
list, keys in first-occurrence order as in a Python dict. -/
def termFreqs (tokens : List Term) : List (Term × Nat) :=
  tokens.foldl bumpCount []

/-- The posting-list merge of `add_document` (inverted_index.py lines
103-121): linear scan for an existing entry with this `doc_id`; if found,
replace it in place with the summed weight and the comma-joined field
tag, else append a new posting. -/
def mergePosting : List Posting → DocId → ℚ → FieldName → List Posting
  | [], d, w, f => [⟨d, w, f⟩]
  | p :: ps, d, w, f =>
    if p.did = d then ⟨d, p.weight + w, p.ftag ++ "," ++ f⟩ :: ps
    else p :: mergePosting ps d w f

/-- The `for term, freq in term_freqs.items()` loop of `add_document` for
one field: each distinct term of the field is merged into its posting
list with weight `freq * field_weight`. -/
def indexField (ix : List (Term × List Posting)) (d : DocId) (w : ℚ) (f : FieldName)
    (tfs : List (Term × Nat)) : List (Term × List Posting) :=
  tfs.foldl
    (fun acc tf => dictSet acc tf.1 (mergePosting (dictGet acc tf.1 []) d ((tf.2 : ℚ) * w) f))
    ix

/-- The `indexed_terms` set of `add_document`: every token of every
indexed field (membership is all that the set is used for). -/
def docTokens (doc : Doc) : List Term :=
  doc.fields.foldl (fun s ft => s ++ ft.2) []

/-- `InvertedIndex._update_avg_doc_length` (inverted_index.py lines
146-149): if any document is stored, the average length becomes the mean
of the stored lengths. -/
def update_avg_doc_length (idx : InvertedIndex) : InvertedIndex :=
  if 0 < idx.total_docs then
    { idx with
      avg_doc_length :=
        ((idx.doc_lengths.map (fun p => (p.2 : ℚ))).sum) / (idx.total_docs : ℚ) }
  else idx

/-- `InvertedIndex.add_document` (inverted_index.py lines 53-132): store
the document, index every field (weighted term frequencies merged under
the posting invariant), bump `term_doc_freq` once per distinct term of
the document, store the total token count as the document length,
increment `total_docs` and recompute the average length. -/
def add_document (idx : InvertedIndex) (doc_id : DocId) (doc : Doc) : InvertedIndex :=
  let st := doc.fields.foldl
    (fun st ft =>
      (indexField st.1 doc_id (idx.field_weights ft.1) ft.1 (termFreqs ft.2),
       st.2 + ft.2.length))
    (idx.index, 0)
  update_avg_doc_length
    { index := st.1
      documents := dictSet idx.documents doc_id doc
      doc_field_lengths :=
        dictSet idx.doc_field_lengths doc_id (doc.fields.map (fun ft => (ft.1, ft.2.length)))
      doc_lengths := dictSet idx.doc_lengths doc_id st.2
      total_docs := idx.total_docs + 1
      avg_doc_length := idx.avg_doc_length
      field_weights := idx.field_weights
      term_doc_freq := fun t => idx.term_doc_freq t + (if t ∈ docTokens doc then 1 else 0) }

/-- `InvertedIndex.get_postings` for an already-normalized term (the
Python method first re-runs the NLTK pipeline on the raw surface term;
on the already-normalized tokens this model works with, that lookup is
the plain dict access). -/
def get_postings (idx : InvertedIndex) (t : Term) : List Posting :=
  dictGet idx.index t []

/-- `InvertedIndex.get_document_frequency` for an already-normalized term. -/
def get_document_frequency (idx : InvertedIndex) (t : Term) : Nat :=
  idx.term_doc_freq t

/-- `InvertedIndex.get_document`. -/
def get_document (idx : InvertedIndex) (d : DocId) : Option Doc :=
  if hasKey idx.documents d then some (dictGet idx.documents d ⟨none, []⟩) else none

/-- `InvertedIndex.get_idf` (inverted_index.py lines 197-211):
`ln((N + 1) / (df + 1)) + 1`, and 0 when `df == 0`. -/
noncomputable def get_idf (idx : InvertedIndex) (t : Term) : ℝ :=
  if get_document_frequency idx t = 0 then 0
  else
    Real.log (((idx.total_docs : ℝ) + 1) / ((get_document_frequency idx t : ℝ) + 1)) + 1

/-- Substring membership test, Python `needle in hay` on strings
(ranking.py field-tag boosts are substring tests on the comma-joined
field tag). -/
def strContains (hay needle : String) : Bool :=
  (List.range (hay.toList.length + 1)).any fun i =>
    List.isPrefixOf needle.toList (hay.toList.drop i)

/-- The boost keyword of the title-field checks in ranking.py. -/
def titleTag : String := "title"

/-- The boost keyword of the authors-field check of BM25. -/
def authorsTag : String := "authors"

/-- `TFIDFRanker.calculate_tf` (ranking.py lines 27-41): 0 for an empty
document, else the log-normalized `1 + ln(term_freq)` when the frequency
is positive and 0 otherwise. -/
noncomputable def calculate_tf (term_freq : ℚ) (doc_length : Nat) : ℝ :=
  if doc_length = 0 then 0
  else if 0 < term_freq then 1 + Real.log (term_freq : ℝ) else 0

/-- `TFIDFRanker.score_document` (ranking.py lines 55-90), translated
statement by statement: fold over the query terms; for the first posting
of the term whose `doc_id` matches, add `tf * idf * query_tf` to the
running score and then, if the field tag contains `"title"`, multiply
the (entire accumulated) score by 1.5. -/
noncomputable def tfidf_score_document (idx : InvertedIndex) (doc_id : DocId)
    (query_terms : List Term) (query_term_freqs : List (Term × Nat)) : ℝ :=
  let doc_length := dictGet idx.doc_lengths doc_id 1
  query_terms.foldl
    (fun score term =>
      match (get_postings idx term).find? (fun p => decide (p.did = doc_id)) with
      | none => score
      | some p =>
        let tf := calculate_tf p.weight doc_length
        let idf := get_idf idx term
        let query_tf := dictGet query_term_freqs term 1
        let s := score + tf * idf * (query_tf : ℝ)
        if strContains p.ftag titleTag then s * 1.5 else s)
    0

/-- Modelled from the spec: the TF-IDF scoring that §4.3 of the spec
describes, where only the per-term contribution (not the accumulated
score) is multiplied by 1.5 on a title match. Kept for comparison with
`tfidf_score_document`, which is the translation of the code. -/
noncomputable def tfidf_score_document_specBoost (idx : InvertedIndex) (doc_id : DocId)
    (query_terms : List Term) (query_term_freqs : List (Term × Nat)) : ℝ :=
  let doc_length := dictGet idx.doc_lengths doc_id 1
  query_terms.foldl
    (fun score term =>
      match (get_postings idx term).find? (fun p => decide (p.did = doc_id)) with
      | none => score
      | some p =>
        let tf := calculate_tf p.weight doc_length
        let idf := get_idf idx term
        let query_tf := dictGet query_term_freqs term 1
        let contrib := tf * idf * (query_tf : ℝ)
        score + (if strContains p.ftag titleTag then contrib * 1.5 else contrib))
    0

/-- The `k1` parameter of `BM25Ranker` as constructed by the code paths
of this repository (constructor default). -/
def bm25_k1 : ℝ := 1.5

/-- The `b` parameter of `BM25Ranker` (constructor default). -/
def bm25_b : ℝ := 0.75

/-- `BM25Ranker.calculate_idf` (ranking.py lines 113-130):
`ln((N - df + 0.5) / (df + 0.5) + 1)`, and 0 when `df == 0`. -/
noncomputable def bm25_calculate_idf (idx : InvertedIndex) (t : Term) : ℝ :=
  if get_document_frequency idx t = 0 then 0
  else
    Real.log
      (((idx.total_docs : ℝ) - (get_document_frequency idx t : ℝ) + 0.5) /
          ((get_document_frequency idx t : ℝ) + 0.5) + 1)

/-- `BM25Ranker.score_document` (ranking.py lines 132-186): return 0 when
`avg_doc_length == 0` before any per-term work; otherwise fold over the
query terms, skipping terms with zero idf or zero weight in the
document, scoring each with the saturated length-normalized formula and
applying the title (×2.0) / authors (×1.5) field boost. -/
noncomputable def bm25_score_document (idx : InvertedIndex) (doc_id : DocId)
    (query_terms : List Term) : ℝ :=
  let doc_length := dictGet idx.doc_lengths doc_id 0
  let avg_dl := idx.avg_doc_length
  if avg_dl = 0 then 0
  else
    query_terms.foldl
      (fun score term =>
        let idf := bm25_calculate_idf idx term
        if idf = 0 then score
        else
          let found := (get_postings idx term).find? (fun p => decide (p.did = doc_id))
          let tf : ℚ := match found with | some p => p.weight | none => 0
          let field_match : FieldName := match found with | some p => p.ftag | none => ""
          if tf = 0 then score
          else
            let numerator := (tf : ℝ) * (bm25_k1 + 1)
            let denominator :=
              (tf : ℝ) + bm25_k1 * (1 - bm25_b + bm25_b * ((doc_length : ℝ) / (avg_dl : ℝ)))
            let term_score := idf * (numerator / denominator)
            let boosted :=
              if strContains field_match titleTag then term_score * 2.0
              else if strContains field_match authorsTag then term_score * 1.5
              else term_score
            score + boosted)
      0

/-- Configuration flags of `TextPreprocessor.__init__` (preprocessor.py
lines 44-59). -/
structure TextPreprocessor where
  use_stemming : Bool
  use_lemmatization : Bool
  expand_synonyms : Bool
deriving DecidableEq

/-- The preprocessor that `InvertedIndex.__init__` constructs for the
indexing path (inverted_index.py lines 42-46). -/
def indexingPreprocessor : TextPreprocessor :=
  { use_stemming := true, use_lemmatization := true, expand_synonyms := false }

/-- The preprocessor that `QueryProcessor.__init__` constructs for the
production query path (query_processor.py lines 31-35). -/
def queryProcessorPreprocessor : TextPreprocessor :=
  { use_stemming := true, use_lemmatization := true, expand_synonyms := false }

/-- The ordered pipeline stages that `TextPreprocessor.preprocess`
(preprocessor.py lines 252-284) applies for a given configuration: clean,
tokenize, remove stopwords, then lemmatization if enabled, then stemming
if enabled, then synonym expansion if this is a query and expansion is
enabled. The stage bodies are NLTK calls, so the embedding records which
stages run, which is exactly what the flags control. -/
def preprocessStages (p : TextPreprocessor) (for_query : Bool) : List String :=
  ["clean_text", "tokenize", "remove_stopwords"]
    ++ (if p.use_lemmatization then ["lemmatize"] else [])
    ++ (if p.use_stemming then ["stem"] else [])
    ++ (if for_query && p.expand_synonyms then ["expand_with_synonyms"] else [])

/-- Positional parameters (after `self`) in the `def score_document` of
`TFIDFRanker` (ranking.py line 55) — the ranker that
`QueryProcessor.__init__` selects by default (`ranking_algorithm`
defaults to `tfidf`). `BM25Ranker` (line 132) and `HybridRanker`
(line 208) declare the same three. -/
def scoreDocumentParams : List String :=
  ["doc_id", "query_terms", "query_term_freqs"]

/-- Positional arguments that the Score step of `QueryProcessor.search`
passes at query_processor.py line 176 (`_search_simple` line 295 passes
the same four). -/
def scoreStepArgs : List String :=
  ["doc_id", "query_terms", "query_term_freqs", "postings_cache"]

/-- The Score step of `QueryProcessor.search` with the Python calling
convention made explicit: a call that supplies more positional arguments
than the callee declares raises `TypeError` instead of running the body
(that is a property of Python itself, not a modelling choice). Only when
the arities match does the configured ranker run. -/
noncomputable def searchScoreStep (idx : InvertedIndex) (doc_id : DocId)
    (query_terms : List Term) (query_term_freqs : List (Term × Nat)) :
    Except String ℝ :=
  if scoreDocumentParams.length < scoreStepArgs.length then
    Except.error
      ("TypeError: score_document() takes 4 positional arguments but 5 were given")
  else
    Except.ok (tfidf_score_document idx doc_id query_terms query_term_freqs)

/-- The per-term posting cache that `QueryProcessor.search` builds:
`term -> doc_id -> (freq, field)`. -/
abbrev PostingsCache := List (Term × List (DocId × (ℚ × FieldName)))

/-- Document-to-matched-terms map built during candidate gathering
(`doc_term_matches`, a `defaultdict(set)`; each per-document set is
modelled as a duplicate-free insertion-ordered list). -/
abbrev DocTermMatches := List (DocId × List Term)

/-- Add a term to the matched-term set of a document
(`doc_term_matches[doc_id].add(term)`). -/
def addMatch (m : DocTermMatches) (d : DocId) (t : Term) : DocTermMatches :=
  let cur := dictGet m d []
  dictSet m d (if t ∈ cur then cur else cur ++ [t])

/-- The exact-match candidate gathering loop of `QueryProcessor.search`
(query_processor.py lines 143-150): build the postings cache and record
which query terms each document matched. -/
def gatherExact (idx : InvertedIndex) (query_terms : List Term) :
    PostingsCache × DocTermMatches :=
  query_terms.foldl
    (fun st term =>
      let postings := get_postings idx term
      (dictSet st.1 term (postings.map (fun p => (p.did, (p.weight, p.ftag)))),
       postings.foldl (fun m p => addMatch m p.did term) st.2))
    ([], [])

/-- `InvertedIndex.get_all_terms` (a Python set of the index keys; set
iteration order is modelled as key insertion order). -/
def get_all_terms (idx : InvertedIndex) : List Term :=
  idx.index.map Prod.fst

/-- `QueryProcessor._get_partial_matches_optimized` without its memo
cache (the cache only memoizes this pure computation per vocabulary
size): indexed terms equal to the query term or related to it by the
two `startswith` tests, capped at 50. -/
def getMatchesForTerm (term : Term) (all_terms : List Term) : List Term :=
  all_terms.foldl
    (fun ms it =>
      if 50 ≤ ms.length then ms
      else if term = it then ms ++ [it]
      else if List.isPrefixOf term.toList it.toList || List.isPrefixOf it.toList term.toList
        then ms ++ [it]
      else ms)
    []

/-- Candidate gathering with the fallback matching of
`QueryProcessor.search` (query_processor.py lines 152-163): when fewer
than 100 documents matched exactly and the query has at most 5 terms,
merge the postings of the fallback matches of each query term into
`doc_term_matches` (counted as a match for the original term), skipping
matches already present as keys of the postings cache. -/
def gatherCandidates (idx : InvertedIndex) (query_terms : List Term) :
    PostingsCache × DocTermMatches :=
  let st := gatherExact idx query_terms
  if st.2.length < 100 ∧ query_terms.length ≤ 5 then
    let all_terms := get_all_terms idx
    (st.1,
     query_terms.foldl
       (fun m term =>
         (getMatchesForTerm term all_terms).foldl
           (fun m2 mt =>
             if hasKey st.1 mt then m2
             else (dictGet idx.index mt []).foldl (fun m3 p => addMatch m3 p.did term) m2)
           m)
       st.2)
  else st

/-- A scorer with the exact call shape of the Score step of
`QueryProcessor.search` (query_processor.py line 176):
`score_document(doc_id, query_terms, query_term_freqs, postings_cache)`.
The search pipeline is parametric in it because the repository ships
three rankers (and, as `searchScoreStep` records, the shipped call is an
arity mismatch); every property proved over the pipeline holds for any
scorer. -/
abbrev Scorer := DocId → List Term → List (Term × Nat) → PostingsCache → ℝ

/-- One scored candidate (`scored_docs` holds `(score, doc_id, doc)`). -/
structure ScoredDoc where
  score : ℝ
  did : DocId
  doc : Doc

/-- The scoring loop of `QueryProcessor.search` (query_processor.py lines
170-184): score every candidate that is present in the document store and
apply the coverage boost `* (1 + matched / num_query_terms)` when the
query has more than one term. -/
noncomputable def scoreCandidates (idx : InvertedIndex) (scorer : Scorer)
    (query_terms : List Term) (query_term_freqs : List (Term × Nat))
    (cache : PostingsCache) (dtm : DocTermMatches) : List ScoredDoc :=
  dtm.foldl
    (fun acc entry =>
      match get_document idx entry.1 with
      | none => acc
      | some doc =>
        let raw := scorer entry.1 query_terms query_term_freqs cache
        let score :=
          if 1 < query_terms.length then
            raw * (1 + ((entry.2.length : ℝ) / (query_terms.length : ℝ)))
          else raw
        acc ++ [⟨score, entry.1, doc⟩])
    []

/-- `QueryProcessor._get_year_for_sort`: `int(year)` with 0 on failure. -/
def yearForSort (doc : Doc) : Int :=
  doc.yearVal.getD 0

/-- The sort step of `QueryProcessor.search` (query_processor.py lines
187-195); Python sorts are stable, modelled with the stable `mergeSort`. -/
noncomputable def sortScored (sort_by : String) (l : List ScoredDoc) : List ScoredDoc :=
  if sort_by = "year_desc" then
    l.mergeSort fun a b =>
      decide (yearForSort b.doc < yearForSort a.doc ∨
        (yearForSort b.doc = yearForSort a.doc ∧ b.score ≤ a.score))
  else if sort_by = "year_asc" then
    l.mergeSort fun a b =>
      decide (yearForSort a.doc < yearForSort b.doc ∨
        (yearForSort a.doc = yearForSort b.doc ∧ b.score ≤ a.score))
  else
    l.mergeSort fun a b => decide (b.score ≤ a.score)

/-- The paginated return shape of `QueryProcessor.search`. -/
structure PageResult (α : Type) where
  results : List α
  total : Nat
  page : Nat
  per_page : Nat
  total_pages : Nat

/-- The empty result that `search` returns for an empty query, an empty
normalized term list or an empty candidate set. -/
def emptyPage (α : Type) (per_page : Nat) : PageResult α :=
  ⟨[], 0, 1, per_page, 0⟩

/-- The pagination step of `QueryProcessor.search` (query_processor.py
lines 197-206): `total_pages = (total + per_page - 1) // per_page` when
there are results (else 0), `page` clamped by
`max(1, min(page, total_pages))` when pages exist (else 1), and the
`[start_idx : end_idx]` slice. -/
def paginate {α : Type} (scored : List α) (page per_page : Nat) : PageResult α :=
  let total := scored.length
  let total_pages := if 0 < total then (total + per_page - 1) / per_page else 0
  let pageClamped := if 0 < total_pages then max 1 (min page total_pages) else 1
  let start_idx := (pageClamped - 1) * per_page
  ⟨(scored.drop start_idx).take per_page, total, pageClamped, per_page, total_pages⟩

/-- `MAX_QUERY_TERMS` of `QueryProcessor.search`. -/
def maxQueryTerms : Nat := 15

/-- `QueryProcessor.search` from the parsed query terms on
(query_processor.py lines 129-214): cap the term list at 15, return the
empty result for an empty term list or an empty candidate set, otherwise
score, coverage-boost, sort and paginate. The parse step itself is the
NLTK pipeline and stays outside the embedding; `query_terms0` is its
output. -/
noncomputable def searchFromTerms (idx : InvertedIndex) (scorer : Scorer)
    (query_terms0 : List Term) (page per_page : Nat) (sort_by : String) :
    PageResult (DocId × Doc × ℝ) :=
  let query_terms :=
    if maxQueryTerms < query_terms0.length then query_terms0.take maxQueryTerms
    else query_terms0
  if query_terms.isEmpty then emptyPage _ per_page
  else
    let query_term_freqs := termFreqs query_terms
    let st := gatherCandidates idx query_terms
    if st.2.isEmpty then emptyPage _ per_page
    else
      let scored :=
        sortScored sort_by (scoreCandidates idx scorer query_terms query_term_freqs st.1 st.2)
      let pg := paginate scored page per_page
      ⟨pg.results.map (fun sd => (sd.did, sd.doc, sd.score)),
       pg.total, pg.page, pg.per_page, pg.total_pages⟩

/-- The posting-list part of the §3 invariant as a predicate on an index
map: every posting list holds at most one entry per document. -/
def atMostOnePosting (ix : List (Term × List Posting)) : Prop :=
  ∀ t d, ((dictGet ix t []).countP (fun p => decide (p.did = d))) ≤ 1

/-- Concrete document for the TF-IDF boost analysis: one title token and
one abstract token (field order as in `searchable_fields`). -/
def docC2 : Doc := ⟨none, [(("title"), [("beta")]), (("abstract"), [("alpha")])]⟩

/-- Index holding `docC2` under uniform field weights. -/
def idxC2 : InvertedIndex := add_document emptyIndexUnitWeights 0 docC2

/-- Query terms hitting the abstract first and the title second. -/
def qtermsC2 : List Term := [("alpha"), ("beta")]

/-- Query term frequencies for `qtermsC2`. -/
def qfreqsC2 : List (Term × Nat) := [(("alpha"), 1), (("beta"), 1)]

/-- The posting that `idxC2` stores for "beta". -/
def postingBeta : Posting := ⟨0, 1, ("title")⟩

/-- Concrete document with a single title token. -/
def docC3 : Doc := ⟨none, [(("title"), [("deep")])]⟩

/-- Default-weight index holding only `docC3`. -/
def idxC3 : InvertedIndex := add_document emptyIndex 0 docC3

/-- Document whose only token is "alpha". -/
def docTermA : Doc := ⟨none, [(("title"), [("alpha")])]⟩

/-- Document whose only token is "beta". -/
def docTermB : Doc := ⟨none, [(("title"), [("beta")])]⟩

/-- Two-document corpus in which "alpha" occurs in one document. -/
def idxDfOne : InvertedIndex := add_document (add_document emptyIndex 0 docTermA) 1 docTermB

/-- Two-document corpus in which "alpha" occurs in both documents. -/
def idxDfTwo : InvertedIndex := add_document (add_document emptyIndex 0 docTermA) 1 docTermA

/-- Document with the same token in two different fields. -/
def docC5 : Doc := ⟨none, [(("title"), [("deep")]), (("abstract"), [("deep")])]⟩

/-- Index holding `docC5` with the default field weights. -/
def idxC5 : InvertedIndex := add_document emptyIndex 0 docC5

/-- Index holding `docC3` once, for the double-add scenario. -/
def idxC10 : InvertedIndex := add_document emptyIndex 0 docC3

/-- Sixteen distinct query terms (one more than `MAX_QUERY_TERMS`). -/
def sixteenTerms : List Term :=
  ["q01", "q02", "q03", "q04", "q05", "q06", "q07", "q08", "q09", "q10", "q11", "q12",
   "q13", "q14", "q15", "q16"]

/-- A trivial scorer with the call shape of the Score step. -/
noncomputable def zeroScorer : Scorer := fun _ _ _ _ => 0

theorem hasKey_iff_mem {α β : Type} [DecidableEq α] (d : List (α × β)) (k : α) :
    hasKey d k = true ↔ k ∈ d.map Prod.fst := by
  induction d with
  | nil => simp [hasKey]
  | cons p d ih =>
    simp only [hasKey, Bool.or_eq_true, decide_eq_true_eq, List.map_cons, List.mem_cons, ih]
    exact or_congr_left (by constructor <;> exact fun h => h.symm)

theorem dictGet_append_left {α β : Type} [DecidableEq α] (d d2 : List (α × β)) (k : α)
    (dflt : β) (h : hasKey d k = true) :
    dictGet (d ++ d2) k dflt = dictGet d k dflt := by
  induction d with
  | nil => simp [hasKey] at h
  | cons p d ih =>
    simp only [hasKey, Bool.or_eq_true, decide_eq_true_eq] at h
    by_cases hp : p.1 = k
    · simp [dictGet, hp]
    · simp only [List.cons_append, dictGet, if_neg hp]
      exact ih (h.resolve_left hp)

theorem dictGet_append_right {α β : Type} [DecidableEq α] (d d2 : List (α × β)) (k : α)
    (dflt : β) (h : ¬ hasKey d k = true) :
    dictGet (d ++ d2) k dflt = dictGet d2 k dflt := by
  induction d with
  | nil => simp
  | cons p d ih =>
    simp only [hasKey, Bool.or_eq_true, decide_eq_true_eq] at h
    push_neg at h
    simp only [List.cons_append, dictGet, if_neg h.1]
    exact ih (by simpa using h.2)

theorem dictGet_not_hasKey {α β : Type} [DecidableEq α] (d : List (α × β)) (k : α)
    (dflt : β) (h : ¬ hasKey d k = true) : dictGet d k dflt = dflt := by
  induction d with
  | nil => rfl
  | cons p d ih =>
    simp only [hasKey, Bool.or_eq_true, decide_eq_true_eq] at h
    push_neg at h
    simp only [dictGet, if_neg h.1]
    exact ih (by simpa using h.2)

theorem dictGet_mapSet_self {α β : Type} [DecidableEq α] (d : List (α × β)) (k : α)
    (v : β) (dflt : β) (h : hasKey d k = true) :
    dictGet (d.map (fun p => if p.1 = k then (k, v) else p)) k dflt = v := by
  induction d with
  | nil => simp [hasKey] at h
  | cons p d ih =>
    simp only [hasKey, Bool.or_eq_true, decide_eq_true_eq] at h
    by_cases hp : p.1 = k
    · simp [dictGet, hp]
    · simp only [List.map_cons, if_neg hp, dictGet, if_neg hp]
      exact ih (h.resolve_left hp)

theorem dictGet_mapSet_ne {α β : Type} [DecidableEq α] (d : List (α × β)) (k k' : α)
    (v : β) (dflt : β) (h : k' ≠ k) :
    dictGet (d.map (fun p => if p.1 = k then (k, v) else p)) k' dflt = dictGet d k' dflt := by
  induction d with
  | nil => rfl
  | cons p d ih =>
    by_cases hp : p.1 = k
    · simp only [List.map_cons, if_pos hp, dictGet, if_neg (fun hh : k = k' => h hh.symm)]
      rw [if_neg (fun hh : p.1 = k' => h (hp ▸ hh).symm)]
      exact ih
    · simp only [List.map_cons, if_neg hp, dictGet]
      by_cases hpk : p.1 = k'
      · simp [hpk]
      · rw [if_neg hpk, if_neg hpk]
        exact ih

theorem dictGet_dictSet_self {α β : Type} [DecidableEq α] (d : List (α × β)) (k : α)
    (v : β) (dflt : β) : dictGet (dictSet d k v) k dflt = v := by
  unfold dictSet
  split
  · exact dictGet_mapSet_self d k v dflt (by assumption)
  · rename_i h
    rw [dictGet_append_right d _ k dflt h]
    simp [dictGet]

theorem dictGet_dictSet_ne {α β : Type} [DecidableEq α] (d : List (α × β)) (k k' : α)
    (v : β) (dflt : β) (h : k' ≠ k) :
    dictGet (dictSet d k v) k' dflt = dictGet d k' dflt := by
  unfold dictSet
  split
  · exact dictGet_mapSet_ne d k k' v dflt h
  · by_cases hk : hasKey d k' = true
    · exact dictGet_append_left d _ k' dflt hk
    · rw [dictGet_append_right d _ k' dflt hk, dictGet_not_hasKey d k' dflt hk]
      simp only [dictGet, if_neg (fun hh : k = k' => h hh.symm)]

theorem dictSet_keys_of_hasKey {α β : Type} [DecidableEq α] (d : List (α × β)) (k : α)
    (v : β) (h : hasKey d k = true) :
    (dictSet d k v).map Prod.fst = d.map Prod.fst := by
  unfold dictSet
  rw [if_pos h, List.map_map]
  apply List.map_congr_left
  intro p _
  by_cases hp : p.1 = k
  · simp [hp]
  · simp [hp]

theorem dictSet_length_of_hasKey {α β : Type} [DecidableEq α] (d : List (α × β)) (k : α)
    (v : β) (h : hasKey d k = true) : (dictSet d k v).length = d.length := by
  unfold dictSet
  rw [if_pos h, List.length_map]

theorem dictSet_keys_of_not_hasKey {α β : Type} [DecidableEq α] (d : List (α × β)) (k : α)
    (v : β) (h : ¬ hasKey d k = true) :
    (dictSet d k v).map Prod.fst = d.map Prod.fst ++ [k] := by
  unfold dictSet
  rw [if_neg h, List.map_append]
  rfl

theorem dictSet_keys_nodup {α β : Type} [DecidableEq α] (d : List (α × β)) (k : α)
    (v : β) (h : (d.map Prod.fst).Nodup) : ((dictSet d k v).map Prod.fst).Nodup := by
  by_cases hk : hasKey d k = true
  · rw [dictSet_keys_of_hasKey d k v hk]; exact h
  · rw [dictSet_keys_of_not_hasKey d k v hk]
    have hkm : k ∉ d.map Prod.fst := fun hm => hk ((hasKey_iff_mem d k).mpr hm)
    simp [List.nodup_append, h, hkm]

theorem dictGet_mem {α β : Type} [DecidableEq α] (d : List (α × β)) (k : α) (dflt : β)
    (h : hasKey d k = true) : (k, dictGet d k dflt) ∈ d := by
  induction d with
  | nil => simp [hasKey] at h
  | cons p d ih =>
    simp only [hasKey, Bool.or_eq_true, decide_eq_true_eq] at h
    by_cases hp : p.1 = k
    · simp only [dictGet, if_pos hp, List.mem_cons]
      left
      rw [← hp]
    · simp only [dictGet, if_neg hp, List.mem_cons]
      exact Or.inr (ih (h.resolve_left hp))

theorem update_avg_documents (idx : InvertedIndex) :
    (update_avg_doc_length idx).documents = idx.documents := by
  unfold update_avg_doc_length; split <;> rfl

theorem update_avg_total_docs (idx : InvertedIndex) :
    (update_avg_doc_length idx).total_docs = idx.total_docs := by
  unfold update_avg_doc_length; split <;> rfl

theorem update_avg_doc_lengths (idx : InvertedIndex) :
    (update_avg_doc_length idx).doc_lengths = idx.doc_lengths := by
  unfold update_avg_doc_length; split <;> rfl

theorem update_avg_index (idx : InvertedIndex) :
    (update_avg_doc_length idx).index = idx.index := by
  unfold update_avg_doc_length; split <;> rfl

theorem update_avg_term_doc_freq (idx : InvertedIndex) :
    (update_avg_doc_length idx).term_doc_freq = idx.term_doc_freq := by
  unfold update_avg_doc_length; split <;> rfl

theorem update_avg_field_weights (idx : InvertedIndex) :
    (update_avg_doc_length idx).field_weights = idx.field_weights := by
  unfold update_avg_doc_length; split <;> rfl

theorem update_avg_of_pos (idx : InvertedIndex) (h : 0 < idx.total_docs) :
    (update_avg_doc_length idx).avg_doc_length =
      ((idx.doc_lengths.map (fun p => (p.2 : ℚ))).sum) / (idx.total_docs : ℚ) := by
  unfold update_avg_doc_length
  rw [if_pos h]

theorem fieldsFold_fst (fw : FieldName → ℚ) (d : DocId)
    (fields : List (FieldName × List Term)) :
    ∀ (ix : List (Term × List Posting)) (n : Nat),
      (fields.foldl
          (fun st ft =>
            (indexField st.1 d (fw ft.1) ft.1 (termFreqs ft.2), st.2 + ft.2.length))
          (ix, n)).1 =
        fields.foldl (fun ix2 ft => indexField ix2 d (fw ft.1) ft.1 (termFreqs ft.2)) ix := by
  induction fields with
  | nil => intro ix n; rfl
  | cons ft fields ih =>
    intro ix n
    simp only [List.foldl_cons]
    exact ih _ _

theorem fieldsFold_snd (fw : FieldName → ℚ) (d : DocId)
    (fields : List (FieldName × List Term)) :
    ∀ (ix : List (Term × List Posting)) (n : Nat),
      (fields.foldl
          (fun st ft =>
            (indexField st.1 d (fw ft.1) ft.1 (termFreqs ft.2), st.2 + ft.2.length))
          (ix, n)).2 =
        n + (fields.map (fun ft => ft.2.length)).sum := by
  induction fields with
  | nil => intro ix n; simp
  | cons ft fields ih =>
    intro ix n
    simp only [List.foldl_cons, List.map_cons, List.sum_cons]
    rw [ih]
    omega

theorem add_document_documents (idx : InvertedIndex) (d : DocId) (doc : Doc) :
    (add_document idx d doc).documents = dictSet idx.documents d doc := by
  unfold add_document
  rw [update_avg_documents]

theorem add_document_total_docs (idx : InvertedIndex) (d : DocId) (doc : Doc) :
    (add_document idx d doc).total_docs = idx.total_docs + 1 := by
  unfold add_document
  rw [update_avg_total_docs]

theorem add_document_doc_lengths (idx : InvertedIndex) (d : DocId) (doc : Doc) :
    (add_document idx d doc).doc_lengths =
      dictSet idx.doc_lengths d ((doc.fields.map (fun ft => ft.2.length)).sum) := by
  unfold add_document
  rw [update_avg_doc_lengths]
  rw [fieldsFold_snd idx.field_weights d doc.fields idx.index 0]
  rw [Nat.zero_add]

theorem add_document_term_doc_freq (idx : InvertedIndex) (d : DocId) (doc : Doc) :
    (add_document idx d doc).term_doc_freq =
      fun t => idx.term_doc_freq t + (if t ∈ docTokens doc then 1 else 0) := by
  unfold add_document
  rw [update_avg_term_doc_freq]

theorem add_document_index (idx : InvertedIndex) (d : DocId) (doc : Doc) :
    (add_document idx d doc).index =
      doc.fields.foldl
        (fun ix2 ft => indexField ix2 d (idx.field_weights ft.1) ft.1 (termFreqs ft.2))
        idx.index := by
  unfold add_document
  rw [update_avg_index]
  exact fieldsFold_fst idx.field_weights d doc.fields idx.index 0

theorem add_document_avg (idx : InvertedIndex) (d : DocId) (doc : Doc) :
    (add_document idx d doc).avg_doc_length =
      (((add_document idx d doc).doc_lengths.map (fun p => (p.2 : ℚ))).sum) /
        (((add_document idx d doc).total_docs : ℕ) : ℚ) := by
  rw [add_document_doc_lengths, add_document_total_docs]
  unfold add_document
  rw [update_avg_of_pos _ (Nat.succ_pos idx.total_docs)]
  rw [fieldsFold_snd idx.field_weights d doc.fields idx.index 0, Nat.zero_add]

/-- C1: the Score step of `QueryProcessor.search` never returns a score:
the call at query_processor.py line 176 supplies four positional
arguments (`doc_id, query_terms, query_term_freqs, postings_cache`)
while every `score_document` in ranking.py declares three, so Python
raises `TypeError` for every candidate document instead of producing the
finite non-negative score the specification promises. -/
theorem searchScoreStep_raises_type_error (idx : InvertedIndex) (doc_id : DocId)
    (query_terms : List Term) (query_term_freqs : List (Term × Nat)) :
    searchScoreStep idx doc_id query_terms query_term_freqs =
      Except.error
        ("TypeError: score_document() takes 4 positional arguments but 5 were given") := by
  rfl

/-- C4 counterexample: the claim says the production query path does not
apply the stemmer, but `QueryProcessor.__init__` builds its preprocessor
with `use_stemming=True`, so the stem stage runs on the query pipeline. -/
theorem query_path_stems_counterexample :
    ("stem") ∈ preprocessStages queryProcessorPreprocessor true := by decide

/-- C4 (amended): the production query path applies cleaning,
tokenization, stopword removal, lemmatization and also stemming (the
same stages as indexing); what is disabled on the query path is synonym
expansion (`expand_synonyms=False`). -/
theorem query_path_pipeline_stages :
    queryProcessorPreprocessor.use_stemming = true ∧
    queryProcessorPreprocessor.expand_synonyms = false ∧
    preprocessStages queryProcessorPreprocessor true =
      ["clean_text", "tokenize", "remove_stopwords", "lemmatize", "stem"] ∧
    preprocessStages queryProcessorPreprocessor true =
      preprocessStages indexingPreprocessor false := by decide

/-- C7: when the average document length of the index is 0,
`BM25Ranker.score_document` returns 0 for every document and every query
term list before any per-term computation, so the division by
`avg_doc_length` in the length-normalized denominator is never reached. -/
theorem bm25_avg_zero_guard (idx : InvertedIndex) (doc_id : DocId)
    (query_terms : List Term) (h : idx.avg_doc_length = 0) :
    bm25_score_document idx doc_id query_terms = 0 := by
  unfold bm25_score_document
  simp [h]

/-- Witness for C7 at a concrete input: the empty index has average
length 0 and BM25 scores document 0 of the one-term query as 0. -/
theorem bm25_avg_zero_guard_witness :
    emptyIndex.avg_doc_length = 0 ∧
    bm25_score_document emptyIndex 0 [("deep")] = 0 :=
  ⟨rfl, bm25_avg_zero_guard emptyIndex 0 [("deep")] rfl⟩

/-- C6: `get_idf` returns 0 when the document frequency is 0, returns
`ln((N + 1) / (df + 1)) + 1` when it is positive, and for a fixed total
document count it is strictly decreasing in the document frequency. -/
theorem get_idf_formula_and_monotonicity :
    (∀ idx t, get_document_frequency idx t = 0 → get_idf idx t = 0) ∧
    (∀ idx t, 0 < get_document_frequency idx t →
      get_idf idx t =
        Real.log
            (((idx.total_docs : ℝ) + 1) / ((get_document_frequency idx t : ℝ) + 1)) + 1) ∧
    (∀ idxA idxB tA tB, idxB.total_docs = idxA.total_docs →
      0 < get_document_frequency idxA tA →
      get_document_frequency idxA tA < get_document_frequency idxB tB →
      get_idf idxB tB < get_idf idxA tA) := by
  refine ⟨fun idx t h => by simp [get_idf, h], fun idx t h => ?_, ?_⟩
  · unfold get_idf
    rw [if_neg (Nat.pos_iff_ne_zero.mp h)]
  · intro idxA idxB tA tB hN hA hAB
    have hB : 0 < get_document_frequency idxB tB := lt_trans hA hAB
    unfold get_idf
    rw [if_neg (Nat.pos_iff_ne_zero.mp hA), if_neg (Nat.pos_iff_ne_zero.mp hB), hN]
    apply add_lt_add_right
    apply Real.log_lt_log
    · apply div_pos
      · positivity
      · positivity
    · apply div_lt_div_of_pos_left
      · positivity
      · positivity
      · have : (get_document_frequency idxA tA : ℝ) < (get_document_frequency idxB tB : ℝ) :=
          Nat.cast_lt.mpr hAB
        linarith

/-- Witness for C6 at concrete inputs: two two-document corpora with the
same total count in which "alpha" has document frequency 1 and 2
respectively; the idf of the rarer occurrence is strictly larger. -/
theorem get_idf_monotonicity_witness :
    idxDfTwo.total_docs = idxDfOne.total_docs ∧
    0 < get_document_frequency idxDfOne ("alpha") ∧
    get_document_frequency idxDfOne ("alpha") < get_document_frequency idxDfTwo ("alpha") ∧
    get_idf idxDfTwo ("alpha") < get_idf idxDfOne ("alpha") :=
  ⟨by decide, by decide, by decide,
   get_idf_formula_and_monotonicity.2.2 idxDfOne idxDfTwo ("alpha") ("alpha")
     (by decide) (by decide) (by decide)⟩

theorem paginate_total_pages {α : Type} (scored : List α) (page per_page : Nat) :
    (paginate scored page per_page).total_pages =
      if 0 < scored.length then (scored.length + per_page - 1) / per_page else 0 := rfl

theorem paginate_page_eq {α : Type} (scored : List α) (page per_page : Nat) :
    (paginate scored page per_page).page =
      if 0 < (paginate scored page per_page).total_pages
      then max 1 (min page (paginate scored page per_page).total_pages) else 1 := rfl

theorem paginate_results_eq {α : Type} (scored : List α) (page per_page : Nat) :
    (paginate scored page per_page).results =
      (scored.drop (((paginate scored page per_page).page - 1) * per_page)).take per_page := rfl

theorem paginate_total_pages_eq_ceilDiv {α : Type} (scored : List α) (page per_page : Nat) :
    (paginate scored page per_page).total_pages = scored.length ⌈/⌉ per_page := by
  rw [paginate_total_pages]
  split
  · rfl
  · rename_i h
    have h0 : scored.length = 0 := by omega
    rw [h0]
    exact (zero_ceilDiv per_page).symm

theorem flattenPagesAux {α : Type} (p : Nat) :
    ∀ (n : Nat) (l : List α), l.length ≤ n * p →
      ((List.range n).map (fun k => (l.drop (k * p)).take p)).flatten = l := by
  intro n
  induction n with
  | zero =>
    intro l hl
    simp only [Nat.zero_mul, Nat.le_zero] at hl
    simp [List.length_eq_zero.mp hl]
  | succ n ih =>
    intro l hl
    rw [List.range_succ_eq_map]
    simp only [List.map_cons, List.map_map, Nat.zero_mul, List.drop_zero, List.flatten_cons]
    have hmap : (List.range n).map ((fun k => (l.drop (k * p)).take p) ∘ Nat.succ) =
        (List.range n).map (fun k => (((l.drop p).drop (k * p)).take p)) := by
      apply List.map_congr_left
      intro k _
      simp only [Function.comp_apply]
      rw [List.drop_drop]
      congr 2
      rw [Nat.succ_mul, Nat.add_comm]
    rw [hmap, ih (l.drop p) ?hlen]
    · exact List.take_append_drop p l
    case hlen =>
      rw [Nat.succ_mul] at hl
      rw [List.length_drop]
      exact Nat.sub_le_iff_le_add.mpr hl

/-- C8: for every result list and every positive page size, the
pagination step of `QueryProcessor.search` computes
`total_pages = ceil(total / per_page)`, clamps the requested page into
`[1, total_pages]` (returning page 1 when there are no pages), and the
page slices for pages `1 .. total_pages` concatenate, in order, back to
the full sorted result list with each item exactly once. -/
theorem paginate_correct {α : Type} (scored : List α) (page per_page : Nat)
    (hp : 0 < per_page) :
    (paginate scored page per_page).total_pages = scored.length ⌈/⌉ per_page ∧
    (0 < (paginate scored page per_page).total_pages →
      1 ≤ (paginate scored page per_page).page ∧
      (paginate scored page per_page).page ≤ (paginate scored page per_page).total_pages) ∧
    ((paginate scored page per_page).total_pages = 0 →
      (paginate scored page per_page).page = 1) ∧
    ((List.range (paginate scored page per_page).total_pages).map
        (fun k => (paginate scored (k + 1) per_page).results)).flatten = scored := by
  refine ⟨paginate_total_pages_eq_ceilDiv scored page per_page, ?_, ?_, ?_⟩
  · intro h
    rw [paginate_page_eq, if_pos h]
    exact ⟨le_max_left 1 _, max_le h (min_le_right page _)⟩
  · intro h
    rw [paginate_page_eq, if_neg (by omega)]
  · have hres : ∀ k ∈ List.range (paginate scored page per_page).total_pages,
        (paginate scored (k + 1) per_page).results =
          (scored.drop (k * per_page)).take per_page := by
      intro k hk
      have hk' : k < (paginate scored page per_page).total_pages := List.mem_range.mp hk
      have htp_eq : (paginate scored (k + 1) per_page).total_pages =
          (paginate scored page per_page).total_pages := rfl
      rw [paginate_results_eq, paginate_page_eq, htp_eq,
        if_pos (Nat.lt_of_le_of_lt (Nat.zero_le k) hk')]
      have hmin : min (k + 1) ((paginate scored page per_page).total_pages) = k + 1 :=
        Nat.min_eq_left hk'
      rw [hmin, Nat.max_eq_right (Nat.succ_le_succ (Nat.zero_le k)), Nat.succ_sub_one]
    rw [List.map_congr_left hres]
    apply flattenPagesAux per_page
    rw [paginate_total_pages_eq_ceilDiv scored page per_page]
    calc scored.length ≤ per_page * (scored.length ⌈/⌉ per_page) := le_smul_ceilDiv hp
      _ = (scored.length ⌈/⌉ per_page) * per_page := Nat.mul_comm _ _

/-- Witness for C8 at a concrete input: three results, two per page, a
requested page of 5 that is clamped to page 2. -/
theorem paginate_correct_witness :
    0 < 2 ∧
    ((paginate [10, 20, 30] 5 2).total_pages = [10, 20, 30].length ⌈/⌉ 2 ∧
      (0 < (paginate [10, 20, 30] 5 2).total_pages →
        1 ≤ (paginate [10, 20, 30] 5 2).page ∧
        (paginate [10, 20, 30] 5 2).page ≤ (paginate [10, 20, 30] 5 2).total_pages) ∧
      ((paginate [10, 20, 30] 5 2).total_pages = 0 →
        (paginate [10, 20, 30] 5 2).page = 1) ∧
      ((List.range (paginate [10, 20, 30] 5 2).total_pages).map
          (fun k => (paginate [10, 20, 30] (k + 1) 2).results)).flatten = [10, 20, 30]) :=
  ⟨by decide, paginate_correct [10, 20, 30] 5 2 (by decide)⟩

/-- C9: when the parsed query has more than `MAX_QUERY_TERMS = 15`
terms, `QueryProcessor.search` truncates to the first 15 before any
candidate gathering (no error is raised), and the search result is
identical to the result of searching the first 15 terms directly — for
any scorer with the call shape of the Score step, any index, any page,
page size and sort order. -/
theorem search_caps_query_terms (idx : InvertedIndex) (scorer : Scorer) (ts : List Term)
    (page per_page : Nat) (sort_by : String) (h : maxQueryTerms < ts.length) :
    searchFromTerms idx scorer ts page per_page sort_by =
      searchFromTerms idx scorer (ts.take maxQueryTerms) page per_page sort_by := by
  have hcap : (if maxQueryTerms < ts.length then ts.take maxQueryTerms else ts) =
      (if maxQueryTerms < (ts.take maxQueryTerms).length then
        (ts.take maxQueryTerms).take maxQueryTerms
      else ts.take maxQueryTerms) := by
    rw [if_pos h, if_neg ?hlt]
    case hlt =>
      rw [List.length_take]
      omega
  unfold searchFromTerms
  rw [hcap]

/-- Witness for C9 at a concrete input: sixteen query terms against the
empty index with a trivial scorer; the search equals the search of the
first fifteen terms. -/
theorem search_caps_query_terms_witness :
    maxQueryTerms < sixteenTerms.length ∧
    searchFromTerms emptyIndex zeroScorer sixteenTerms 1 20 ("relevance") =
      searchFromTerms emptyIndex zeroScorer (sixteenTerms.take maxQueryTerms) 1 20
        ("relevance") :=
  ⟨by decide,
   search_caps_query_terms emptyIndex zeroScorer sixteenTerms 1 20 ("relevance") (by decide)⟩

/-- C2 counterexample: in `idxC2`, query `["alpha", "beta"]` matches
"alpha" in the abstract (contribution 1) and "beta" in the title
(contribution 1). The code multiplies the whole accumulated score by
1.5 on the title match, giving (1 + 1) * 1.5 = 3, while the claimed
per-term boost gives 1 + 1 * 1.5 = 5/2, so the claim is false on the
code at this input. -/
theorem tfidf_title_boost_counterexample :
    tfidf_score_document idxC2 0 qtermsC2 qfreqsC2 = 3 ∧
    tfidf_score_document_specBoost idxC2 0 qtermsC2 qfreqsC2 = 5 / 2 ∧
    (3 : ℝ) ≠ 5 / 2 := by
  have hT : strContains ("title") titleTag = true := by decide
  have hA : strContains ("abstract") titleTag = false := by decide
  have hba : (("beta" : String) = ("alpha" : String)) = False := eq_false (by decide)
  refine ⟨?_, ?_, by norm_num⟩ <;>
    norm_num [tfidf_score_document, tfidf_score_document_specBoost, idxC2, docC2,
      qtermsC2, qfreqsC2, add_document, update_avg_doc_length, emptyIndexUnitWeights,
      indexField, termFreqs, bumpCount, dictGet, dictSet, hasKey, mergePosting,
      get_postings, get_idf, get_document_frequency, docTokens, calculate_tf,
      hT, hA, hba, Real.log_one]

/-- C2 (amended): when a query term matches a posting whose field tag
contains "title", `TFIDFRanker.score_document` multiplies the entire
accumulated score by 1.5 — the contributions of all previously processed
query terms are scaled along with the contribution of the boosted term
itself. -/
theorem tfidf_title_boost_scales_accumulated (idx : InvertedIndex) (doc_id : DocId)
    (ts : List Term) (t : Term) (query_term_freqs : List (Term × Nat)) (p : Posting)
    (hfind : (get_postings idx t).find? (fun q => decide (q.did = doc_id)) = some p)
    (htitle : strContains p.ftag titleTag = true) :
    tfidf_score_document idx doc_id (ts ++ [t]) query_term_freqs =
      (tfidf_score_document idx doc_id ts query_term_freqs +
        calculate_tf p.weight (dictGet idx.doc_lengths doc_id 1) * get_idf idx t *
          ((dictGet query_term_freqs t 1 : ℕ) : ℝ)) * 1.5 := by
  unfold tfidf_score_document
  simp only [List.foldl_append, List.foldl_cons, List.foldl_nil, hfind, htitle, if_true]

/-- Witness for the amended C2 at a concrete input: in `idxC2` the term
"beta" matches the stored title posting, and appending it to the query
`["alpha"]` scales the already-accumulated "alpha" contribution by 1.5. -/
theorem tfidf_title_boost_witness :
    (get_postings idxC2 ("beta")).find? (fun q => decide (q.did = 0)) = some postingBeta ∧
    strContains postingBeta.ftag titleTag = true ∧
    tfidf_score_document idxC2 0 ([("alpha")] ++ [("beta")]) qfreqsC2 =
      (tfidf_score_document idxC2 0 [("alpha")] qfreqsC2 +
        calculate_tf postingBeta.weight (dictGet idxC2.doc_lengths 0 1) *
          get_idf idxC2 ("beta") * ((dictGet qfreqsC2 ("beta") 1 : ℕ) : ℝ)) * 1.5 := by
  have h1 : (get_postings idxC2 ("beta")).find? (fun q => decide (q.did = 0)) =
      some postingBeta := by
    norm_num [get_postings, idxC2, docC2, add_document, update_avg_doc_length,
      emptyIndexUnitWeights, indexField, termFreqs, bumpCount, dictGet, dictSet, hasKey,
      mergePosting, postingBeta]
  have h2 : strContains postingBeta.ftag titleTag = true := by decide
  exact ⟨h1, h2,
    tfidf_title_boost_scales_accumulated idxC2 0 [("alpha")] ("beta") qfreqsC2 postingBeta
      h1 h2⟩

theorem add_document_field_weights (idx : InvertedIndex) (d : DocId) (doc : Doc) :
    (add_document idx d doc).field_weights = idx.field_weights := by
  unfold add_document
  rw [update_avg_field_weights]

/-- C3 counterexample: adding a document whose title holds one token to
the default-weight index stores a document length of 1 (the raw token
count), not the field-weighted 1 * 3.0 = 3 the claim asserts. -/
theorem doc_length_not_weighted_counterexample :
    dictGet idxC3.doc_lengths 0 0 = 1 ∧
    (docC3.fields.map (fun ft => (ft.2.length : ℚ) * idxC3.field_weights ft.1)).sum = 3 ∧
    ((dictGet idxC3.doc_lengths 0 0 : ℕ) : ℚ) ≠
      (docC3.fields.map (fun ft => (ft.2.length : ℚ) * idxC3.field_weights ft.1)).sum := by
  have h1 : dictGet idxC3.doc_lengths 0 0 = 1 := by decide
  have h2 : (docC3.fields.map (fun ft => (ft.2.length : ℚ) * idxC3.field_weights ft.1)).sum
      = 3 := by
    have hfw : idxC3.field_weights = configFieldWeights :=
      add_document_field_weights emptyIndex 0 docC3
    rw [hfw]
    norm_num [docC3, configFieldWeights]
  refine ⟨h1, h2, ?_⟩
  rw [h1, h2]
  norm_num

/-- C3 (amended): the stored per-document length is the sum over the
indexed fields of the raw (unweighted) token counts — the field weights
do not enter `doc_lengths` — and `avg_doc_length` is recomputed after
the insert as the mean of the stored lengths. -/
theorem doc_length_sum_and_avg_recompute (idx : InvertedIndex) (doc_id : DocId) (doc : Doc) :
    dictGet (add_document idx doc_id doc).doc_lengths doc_id 0 =
      (doc.fields.map (fun ft => ft.2.length)).sum ∧
    (add_document idx doc_id doc).avg_doc_length =
      (((add_document idx doc_id doc).doc_lengths.map (fun p => (p.2 : ℚ))).sum) /
        (((add_document idx doc_id doc).total_docs : ℕ) : ℚ) :=
  ⟨by rw [add_document_doc_lengths, dictGet_dictSet_self], add_document_avg idx doc_id doc⟩

/-- C10: `add_document` has no guard against an already-indexed doc_id:
re-adding overwrites the single document-store entry (the store keeps
its size and key set) while `total_docs` is incremented again and
`term_doc_freq` is re-incremented for every term of the document, so
afterwards `total_docs` exceeds the number of distinct stored documents. -/
theorem add_document_double_add (idx : InvertedIndex) (doc_id : DocId) (doc : Doc)
    (hnd : (idx.documents.map Prod.fst).Nodup)
    (hmem : doc_id ∈ idx.documents.map Prod.fst)
    (htd : idx.total_docs = idx.documents.length) :
    (add_document idx doc_id doc).total_docs = idx.total_docs + 1 ∧
    (add_document idx doc_id doc).documents.length = idx.documents.length ∧
    ((add_document idx doc_id doc).documents.map Prod.fst).Nodup ∧
    dictGet (add_document idx doc_id doc).documents doc_id ⟨none, []⟩ = doc ∧
    (add_document idx doc_id doc).documents.length < (add_document idx doc_id doc).total_docs ∧
    (∀ t, t ∈ docTokens doc →
      (add_document idx doc_id doc).term_doc_freq t = idx.term_doc_freq t + 1) := by
  have hkey : hasKey idx.documents doc_id = true := (hasKey_iff_mem _ _).mpr hmem
  refine ⟨add_document_total_docs idx doc_id doc, ?_, ?_, ?_, ?_, ?_⟩
  · rw [add_document_documents]
    exact dictSet_length_of_hasKey _ _ _ hkey
  · rw [add_document_documents]
    exact dictSet_keys_nodup _ _ _ hnd
  · rw [add_document_documents]
    exact dictGet_dictSet_self _ _ _ _
  · rw [add_document_documents, add_document_total_docs,
      dictSet_length_of_hasKey _ _ _ hkey, htd]
    omega
  · intro t ht
    rw [add_document_term_doc_freq]
    simp only [if_pos ht]

/-- Witness for C10 at a concrete input: adding `docC3` under doc_id 0 a
second time leaves one stored document but raises `total_docs` to 2. -/
theorem add_document_double_add_witness :
    (idxC10.documents.map Prod.fst).Nodup ∧
    0 ∈ idxC10.documents.map Prod.fst ∧
    idxC10.total_docs = idxC10.documents.length ∧
    ((add_document idxC10 0 docC3).total_docs = idxC10.total_docs + 1 ∧
      (add_document idxC10 0 docC3).documents.length = idxC10.documents.length ∧
      ((add_document idxC10 0 docC3).documents.map Prod.fst).Nodup ∧
      dictGet (add_document idxC10 0 docC3).documents 0 ⟨none, []⟩ = docC3 ∧
      (add_document idxC10 0 docC3).documents.length <
        (add_document idxC10 0 docC3).total_docs ∧
      (∀ t, t ∈ docTokens docC3 →
        (add_document idxC10 0 docC3).term_doc_freq t = idxC10.term_doc_freq t + 1)) :=
  ⟨by decide, by decide, by decide,
   add_document_double_add idxC10 0 docC3 (by decide) (by decide) (by decide)⟩

theorem countP_mergePosting_ne (ps : List Posting) (d : DocId) (w : ℚ) (f : FieldName)
    (d2 : DocId) (h : d2 ≠ d) :
    (mergePosting ps d w f).countP (fun p => decide (p.did = d2)) =
      ps.countP (fun p => decide (p.did = d2)) := by
  induction ps with
  | nil =>
    simp [mergePosting, List.countP_cons, decide_eq_false (fun hh : d = d2 => h hh.symm)]
  | cons p ps ih =>
    unfold mergePosting
    split
    · rename_i hp
      simp only [List.countP_cons, hp]
    · simp only [List.countP_cons, ih]

theorem countP_mergePosting_le (ps : List Posting) (d : DocId) (w : ℚ) (f : FieldName)
    (d2 : DocId) (h : ps.countP (fun p => decide (p.did = d2)) ≤ 1) :
    (mergePosting ps d w f).countP (fun p => decide (p.did = d2)) ≤ 1 := by
  induction ps with
  | nil =>
    cases hdd : decide (d = d2) <;> simp [mergePosting, List.countP_cons, hdd]
  | cons p ps ih =>
    by_cases hp : p.did = d
    · unfold mergePosting
      rw [if_pos hp]
      simp only [List.countP_cons] at h ⊢
      rw [hp] at h
      exact h
    · unfold mergePosting
      rw [if_neg hp]
      simp only [List.countP_cons] at h ⊢
      by_cases hp2 : p.did = d2
      · have hd2 : d2 ≠ d := fun hh => hp (hp2.trans hh)
        rw [countP_mergePosting_ne ps d w f d2 hd2]
        exact h
      · simp only [decide_eq_false hp2, Bool.false_eq_true, if_false] at h ⊢
        have := ih (by omega)
        omega

theorem atMostOnePosting_dictSet_merge (ix : List (Term × List Posting)) (t : Term)
    (d : DocId) (w : ℚ) (f : FieldName) (h : atMostOnePosting ix) :
    atMostOnePosting (dictSet ix t (mergePosting (dictGet ix t []) d w f)) := by
  intro t2 d2
  by_cases ht : t2 = t
  · subst ht
    rw [dictGet_dictSet_self]
    exact countP_mergePosting_le _ _ _ _ _ (h t2 d2)
  · rw [dictGet_dictSet_ne _ _ _ _ _ ht]
    exact h t2 d2

theorem atMostOnePosting_indexField (d : DocId) (w : ℚ) (f : FieldName) :
    ∀ (tfs : List (Term × Nat)) (ix : List (Term × List Posting)),
      atMostOnePosting ix → atMostOnePosting (indexField ix d w f tfs) := by
  intro tfs
  induction tfs with
  | nil => intro ix h; exact h
  | cons tf tfs ih =>
    intro ix h
    exact ih _ (atMostOnePosting_dictSet_merge ix tf.1 d ((tf.2 : ℚ) * w) f h)

theorem atMostOnePosting_foldFields (d : DocId) (fw : FieldName → ℚ) :
    ∀ (fields : List (FieldName × List Term)) (ix : List (Term × List Posting)),
      atMostOnePosting ix →
      atMostOnePosting
        (fields.foldl (fun ix2 ft => indexField ix2 d (fw ft.1) ft.1 (termFreqs ft.2)) ix) := by
  intro fields
  induction fields with
  | nil => intro ix h; exact h
  | cons ft fields ih =>
    intro ix h
    simp only [List.foldl_cons]
    exact ih _ (atMostOnePosting_indexField d (fw ft.1) ft.1 (termFreqs ft.2) ix h)

theorem mergePosting_of_fresh (ps : List Posting) (d : DocId) (w : ℚ) (f : FieldName)
    (h : ∀ p ∈ ps, p.did ≠ d) : mergePosting ps d w f = ps ++ [⟨d, w, f⟩] := by
  induction ps with
  | nil => rfl
  | cons p ps ih =>
    unfold mergePosting
    rw [if_neg (h p (List.mem_cons_self p ps))]
    rw [ih (fun q hq => h q (List.mem_cons_of_mem p hq))]
    rfl

theorem filter_append_fresh (ps : List Posting) (d : DocId) (w : ℚ) (f : FieldName)
    (h : ∀ p ∈ ps, p.did ≠ d) :
    (ps ++ [(⟨d, w, f⟩ : Posting)]).filter (fun p => decide (p.did = d)) = [⟨d, w, f⟩] := by
  rw [List.filter_append]
  have h1 : ps.filter (fun p => decide (p.did = d)) = [] := by
    rw [List.filter_eq_nil_iff]
    intro a ha
    simp [h a ha]
  rw [h1]
  simp

theorem filter_mergePosting_single (ps : List Posting) (d : DocId) (w : ℚ) (f : FieldName)
    (p0 : Posting) (h : ps.filter (fun p => decide (p.did = d)) = [p0]) :
    (mergePosting ps d w f).filter (fun p => decide (p.did = d)) =
      [⟨d, p0.weight + w, p0.ftag ++ "," ++ f⟩] := by
  induction ps with
  | nil => simp at h
  | cons q ps ih =>
    by_cases hq : q.did = d
    · rw [List.filter_cons_of_pos (by simp [hq])] at h
      injection h with h1 h2
      unfold mergePosting
      rw [if_pos hq]
      rw [List.filter_cons_of_pos (by simp)]
      rw [h2, h1]
    · rw [List.filter_cons_of_neg (by simp [hq])] at h
      unfold mergePosting
      rw [if_neg hq]
      rw [List.filter_cons_of_neg (by simp [hq])]
      exact ih h

theorem dictGet_indexField_not_mem (d : DocId) (w : ℚ) (f : FieldName) :
    ∀ (tfs : List (Term × Nat)) (ix : List (Term × List Posting)) (t : Term),
      t ∉ tfs.map Prod.fst →
      dictGet (indexField ix d w f tfs) t [] = dictGet ix t [] := by
  intro tfs
  induction tfs with
  | nil => intro ix t _; rfl
  | cons tf tfs ih =>
    intro ix t h
    simp only [List.map_cons, List.mem_cons] at h
    push_neg at h
    have hstep : indexField ix d w f (tf :: tfs) =
        indexField (dictSet ix tf.1 (mergePosting (dictGet ix tf.1 []) d ((tf.2 : ℚ) * w) f))
          d w f tfs := rfl
    rw [hstep, ih _ t h.2, dictGet_dictSet_ne _ _ _ _ _ h.1]

theorem dictGet_indexField_mem (d : DocId) (w : ℚ) (f : FieldName) :
    ∀ (tfs : List (Term × Nat)) (ix : List (Term × List Posting)) (t : Term) (c : Nat),
      (tfs.map Prod.fst).Nodup → (t, c) ∈ tfs →
      dictGet (indexField ix d w f tfs) t [] =
        mergePosting (dictGet ix t []) d ((c : ℚ) * w) f := by
  intro tfs
  induction tfs with
  | nil => intro ix t c _ hm; simp at hm
  | cons tf tfs ih =>
    intro ix t c hnd hm
    have hstep : indexField ix d w f (tf :: tfs) =
        indexField (dictSet ix tf.1 (mergePosting (dictGet ix tf.1 []) d ((tf.2 : ℚ) * w) f))
          d w f tfs := rfl
    simp only [List.map_cons, List.nodup_cons] at hnd
    rcases List.mem_cons.mp hm with heq | hmem
    · subst heq
      rw [hstep, dictGet_indexField_not_mem d w f tfs _ t (by simpa using hnd.1),
        dictGet_dictSet_self]
    · have ht : t ≠ tf.1 := by
        intro hh
        exact hnd.1 (hh ▸ List.mem_map_of_mem Prod.fst hmem)
      rw [hstep, ih _ t c hnd.2 hmem, dictGet_dictSet_ne _ _ _ _ _ ht]

theorem dictGet_mapBump_self (acc : List (Term × Nat)) (t : Term)
    (h : hasKey acc t = true) :
    dictGet (acc.map (fun p => if p.1 = t then (p.1, p.2 + 1) else p)) t 0 =
      dictGet acc t 0 + 1 := by
  induction acc with
  | nil => simp [hasKey] at h
  | cons p acc ih =>
    simp only [hasKey, Bool.or_eq_true, decide_eq_true_eq] at h
    by_cases hp : p.1 = t
    · simp [dictGet, hp]
    · simp only [List.map_cons, if_neg hp, dictGet, if_neg hp]
      exact ih (h.resolve_left hp)

theorem dictGet_mapBump_ne (acc : List (Term × Nat)) (t u : Term) (h : u ≠ t) :
    dictGet (acc.map (fun p => if p.1 = t then (p.1, p.2 + 1) else p)) u 0 =
      dictGet acc u 0 := by
  induction acc with
  | nil => rfl
  | cons p acc ih =>
    by_cases hp : p.1 = t
    · simp only [List.map_cons, if_pos hp, dictGet]
      rw [if_neg (by rw [hp]; exact fun hh => h hh.symm), if_neg (by rw [hp]; exact fun hh => h hh.symm)]
      exact ih
    · simp only [List.map_cons, if_neg hp, dictGet]
      by_cases hpu : p.1 = u
      · simp [hpu]
      · rw [if_neg hpu, if_neg hpu]
        exact ih

theorem dictGet_bumpCount_self (acc : List (Term × Nat)) (t : Term) :
    dictGet (bumpCount acc t) t 0 = dictGet acc t 0 + 1 := by
  unfold bumpCount
  split
  · exact dictGet_mapBump_self acc t (by assumption)
  · rename_i h
    rw [dictGet_append_right _ _ _ _ h, dictGet_not_hasKey _ _ _ h]
    simp [dictGet]

theorem dictGet_bumpCount_ne (acc : List (Term × Nat)) (t u : Term) (h : u ≠ t) :
    dictGet (bumpCount acc t) u 0 = dictGet acc u 0 := by
  unfold bumpCount
  split
  · exact dictGet_mapBump_ne acc t u h
  · by_cases hk : hasKey acc u = true
    · exact dictGet_append_left acc _ u 0 hk
    · rw [dictGet_append_right _ _ _ _ hk, dictGet_not_hasKey _ _ _ hk]
      simp only [dictGet, if_neg (fun hh : t = u => h hh.symm)]

theorem bumpCount_keys (acc : List (Term × Nat)) (t : Term) :
    (bumpCount acc t).map Prod.fst =
      if hasKey acc t then acc.map Prod.fst else acc.map Prod.fst ++ [t] := by
  unfold bumpCount
  split
  · rw [List.map_map]
    apply List.map_congr_left
    intro p _
    by_cases hp : p.1 = t
    · simp [hp]
    · simp [hp]
  · simp

theorem bumpCount_keys_nodup (acc : List (Term × Nat)) (t : Term)
    (h : (acc.map Prod.fst).Nodup) : ((bumpCount acc t).map Prod.fst).Nodup := by
  rw [bumpCount_keys]
  split
  · exact h
  · rename_i hk
    have hm : t ∉ acc.map Prod.fst := fun hm => hk ((hasKey_iff_mem acc t).mpr hm)
    simp [List.nodup_append, h, hm]

theorem mem_bumpCount_keys (acc : List (Term × Nat)) (t u : Term) :
    u ∈ (bumpCount acc t).map Prod.fst ↔ u ∈ acc.map Prod.fst ∨ u = t := by
  rw [bumpCount_keys]
  split
  · rename_i hk
    constructor
    · exact Or.inl
    · rintro (h | rfl)
      · exact h
      · exact (hasKey_iff_mem acc u).mp hk
  · simp [List.mem_append]

theorem termFreqs_go (tokens : List Term) :
    ∀ acc : List (Term × Nat), (acc.map Prod.fst).Nodup →
      ((tokens.foldl bumpCount acc).map Prod.fst).Nodup ∧
      (∀ t, t ∈ (tokens.foldl bumpCount acc).map Prod.fst ↔
        t ∈ acc.map Prod.fst ∨ t ∈ tokens) ∧
      (∀ t, dictGet (tokens.foldl bumpCount acc) t 0 = dictGet acc t 0 + tokens.count t) := by
  induction tokens with
  | nil =>
    intro acc ha
    exact ⟨ha, fun t => by simp, fun t => by simp⟩
  | cons tok tokens ih =>
    intro acc ha
    obtain ⟨h1, h2, h3⟩ := ih (bumpCount acc tok) (bumpCount_keys_nodup acc tok ha)
    refine ⟨h1, fun t => ?_, fun t => ?_⟩
    · simp only [List.foldl_cons]
      rw [h2 t, mem_bumpCount_keys]
      simp only [List.mem_cons]
      tauto
    · simp only [List.foldl_cons]
      rw [h3 t]
      by_cases htok : t = tok
      · subst htok
        rw [dictGet_bumpCount_self]
        rw [List.count_cons_self]
        omega
      · rw [dictGet_bumpCount_ne acc tok t htok]
        rw [List.count_cons_of_ne (fun hh => htok hh)]

theorem termFreqs_keys_nodup (tokens : List Term) :
    ((termFreqs tokens).map Prod.fst).Nodup :=
  (termFreqs_go tokens [] (by simp)).1

theorem dictGet_termFreqs (tokens : List Term) (t : Term) :
    dictGet (termFreqs tokens) t 0 = tokens.count t := by
  have := (termFreqs_go tokens [] (by simp)).2.2 t
  simpa [dictGet, termFreqs] using this

theorem mem_termFreqs (tokens : List Term) (t : Term) (h : t ∈ tokens) :
    (t, tokens.count t) ∈ termFreqs tokens := by
  have hk : t ∈ (termFreqs tokens).map Prod.fst :=
    ((termFreqs_go tokens [] (by simp)).2.1 t).mpr (Or.inr h)
  have hmem := dictGet_mem (termFreqs tokens) t 0 ((hasKey_iff_mem _ _).mpr hk)
  rwa [dictGet_termFreqs] at hmem

/-- C5: the merge invariant of `add_document`. First, if every posting
list of the index holds at most one entry per document, that is still
true after any `add_document`. Second, adding a fresh document whose
token `t` occurs in two fields stores exactly one posting for
`(t, doc_id)`, with weight equal to the sum of the two field-weighted
counts and with the comma-joined tag holding both field names. -/
theorem merge_invariant :
    (∀ (idx : InvertedIndex) (doc_id : DocId) (doc : Doc),
      atMostOnePosting idx.index → atMostOnePosting (add_document idx doc_id doc).index) ∧
    (∀ (idx : InvertedIndex) (doc_id : DocId) (yv : Option Int) (f1 : FieldName)
        (ts1 : List Term) (f2 : FieldName) (ts2 : List Term) (t : Term),
      f1 ≠ f2 → t ∈ ts1 → t ∈ ts2 →
      (∀ t2 p, p ∈ dictGet idx.index t2 [] → p.did ≠ doc_id) →
      (dictGet (add_document idx doc_id ⟨yv, [(f1, ts1), (f2, ts2)]⟩).index t []).filter
          (fun p => decide (p.did = doc_id)) =
        [⟨doc_id,
          (ts1.count t : ℚ) * idx.field_weights f1 +
            (ts2.count t : ℚ) * idx.field_weights f2,
          f1 ++ "," ++ f2⟩]) := by
  constructor
  · intro idx doc_id doc h
    rw [add_document_index]
    exact atMostOnePosting_foldFields doc_id idx.field_weights doc.fields idx.index h
  · intro idx doc_id yv f1 ts1 f2 ts2 t hfne ht1 ht2 hfresh
    rw [add_document_index]
    simp only [List.foldl_cons, List.foldl_nil]
    rw [dictGet_indexField_mem doc_id (idx.field_weights f2) f2 (termFreqs ts2) _ t
      (ts2.count t) (termFreqs_keys_nodup ts2) (mem_termFreqs ts2 t ht2)]
    rw [dictGet_indexField_mem doc_id (idx.field_weights f1) f1 (termFreqs ts1) _ t
      (ts1.count t) (termFreqs_keys_nodup ts1) (mem_termFreqs ts1 t ht1)]
    rw [mergePosting_of_fresh _ _ _ _ (fun p hp => hfresh t p hp)]
    exact filter_mergePosting_single _ _ _ _ _
      (filter_append_fresh _ _ _ _ (fun p hp => hfresh t p hp))

/-- Witness for C5 at a concrete input: the empty default-weight index
satisfies the at-most-one invariant and is fresh for doc_id 0; adding
`docC5` (the token "deep" in both title and abstract) stores exactly one
posting for ("deep", 0) with weight 1 * 3 + 1 * 1 and tag
"title,abstract". -/
theorem merge_invariant_witness :
    atMostOnePosting emptyIndex.index ∧
    ("title" : FieldName) ≠ ("abstract") ∧
    ("deep" : Term) ∈ [("deep" : Term)] ∧
    (∀ t2 p, p ∈ dictGet emptyIndex.index t2 [] → p.did ≠ 0) ∧
    atMostOnePosting idxC5.index ∧
    (dictGet idxC5.index ("deep") []).filter (fun p => decide (p.did = 0)) =
      [⟨0,
        (([("deep" : Term)].count ("deep") : ℕ) : ℚ) * emptyIndex.field_weights ("title") +
          (([("deep" : Term)].count ("deep") : ℕ) : ℚ) *
            emptyIndex.field_weights ("abstract"),
        ("title") ++ "," ++ ("abstract")⟩] := by
  have hempty : atMostOnePosting emptyIndex.index := by
    intro t d
    simp [emptyIndex, dictGet]
  have hfresh : ∀ t2 p, p ∈ dictGet emptyIndex.index t2 [] → p.did ≠ 0 := by
    intro t2 p hp
    simp [emptyIndex, dictGet] at hp
  exact ⟨hempty, by decide, by decide, hfresh,
    merge_invariant.1 emptyIndex 0 docC5 hempty,
    merge_invariant.2 emptyIndex 0 none ("title") [("deep")] ("abstract") [("deep")]
      ("deep") (by decide) (by decide) (by decide) hfresh⟩

end CUSearch
